import Mathlib

/-!
Verification of the ironclaw workspace object-store engine.

The definitions below are a shallow embedding of the TypeScript source:

* `src/entrypoint.sh` (library section): `safeResolvePath`, `discoverDuckDBPaths`,
  `findDuckDBForObject`, `duckdbQueryAll`, `duckdbExecOnFile`, ...
* `src/apps/web/app/api/workspace/objects/[name]/fields/[fieldId]/enum-rename/route.ts`:
  the `PATCH` handler (`patchEnumRename` below).
* `src/apps/web/app/api/workspace/objects/[name]/entries/bulk-delete/route.ts`:
  the `POST` handler (`postBulkDelete` below).
* `src/unnamed/part_003`: `pivotEavRows`.

Modelling conventions:

* JavaScript strings are Lean `String`s; `String.prototype.startsWith` /
  `includes` are modelled at the character-list level (`jsStartsWith`,
  `jsIncludes`).
* The DuckDB CLI subprocess layer is modelled semantically: a database file is
  a `DB` value, a query is a pure function of the `DB`, an exec is a `DB → DB`
  state transition.  SQL escaping (`sqlEscape` doubling quotes, plus the shell
  escape) round-trips through the SQL parser, so at this semantic level it is
  the identity and is not re-modelled.  Process-level failures (missing
  binary, timeouts) are not modelled.
* JSON (de)serialization of the `enum_values` string array round-trips
  (`JSON.parse (JSON.stringify a) = a`), so the `enum_values` column is
  modelled in decoded form, `Option (List String)` (`none` = SQL NULL).
  `enum_colors` is never parsed by the code under verification and stays a
  raw `Option String`.
-/

namespace Ironclaw

/-- JavaScript `s.startsWith(pre)`, modelled on the character list. -/
def jsStartsWith (s pre : String) : Bool :=
  pre.data.isPrefixOf s.data

/-- JavaScript `s.includes(sub)`, modelled on the character list. -/
def jsIncludes (s sub : String) : Bool :=
  s.data.tails.any (fun t => sub.data.isPrefixOf t)

/-- Split a character list at every occurrence of `c` (like
`String.split` / JS `String.prototype.split` on a one-character separator). -/
def splitCharsOn (c : Char) : List Char → List (List Char)
  | [] => [[]]
  | x :: xs =>
    if x = c then [] :: splitCharsOn c xs
    else
      match splitCharsOn c xs with
      | [] => [[x]]
      | seg :: rest => (x :: seg) :: rest

/-- The `/`-separated segments of a path string. -/
def splitOnSlash (s : String) : List String :=
  (splitCharsOn '/' s.data).map (fun cs => String.mk cs)

/-- JavaScript `s.trim()`: strip leading and trailing whitespace. -/
def jsTrim (s : String) : String :=
  String.mk
    (((s.data.dropWhile Char.isWhitespace).reverse.dropWhile
      Char.isWhitespace).reverse)

/-! ## Path Resolver (entrypoint.sh library section, `safeResolvePath`)

Node's posix `path.normalize` resolves `.` and `..` segments without touching
the filesystem.  We model it by a stack-based pass over the `/`-separated
segments.  `path.resolve(base, p)` (with `base` absolute) is `p` normalized
when `p` is absolute, else `base ++ "/" ++ p` normalized as an absolute path.
-/

/-- One step of posix `path.normalize`: process segment `seg` against the
stack `acc` of already-processed segments (most recent first).  `.` and empty
segments are dropped; `..` pops a normal segment, is kept in a relative path
when nothing can be popped, and is dropped at the root of an absolute path. -/
def normStep (isAbs : Bool) (acc : List String) (seg : String) : List String :=
  if seg = "" || seg = "." then acc
  else if seg = ".." then
    match acc with
    | [] => if isAbs then [] else [".."]
    | top :: accTail => if top = ".." then ".." :: top :: accTail else accTail
  else seg :: acc

/-- The stack pass of posix `path.normalize` over all segments; the result is
returned in forward order. -/
def normStack (isAbs : Bool) (acc : List String) : List String → List String
  | [] => acc.reverse
  | seg :: rest => normStack isAbs (normStep isAbs acc seg) rest

/-- The segments of `path.normalize p` (posix). -/
def normalizeSegs (p : String) : List String :=
  normStack (jsStartsWith p "/") [] (splitOnSlash p)

/-- Join path segments with `/`. -/
def joinSegs : List String → String
  | [] => ""
  | [s] => s
  | s :: rest => s ++ "/" ++ joinSegs rest

/-- Node posix `path.normalize` (trailing-slash preservation, irrelevant to the
properties verified here, is not modelled). -/
def normalize (p : String) : String :=
  let segs := normalizeSegs p
  if jsStartsWith p "/" then "/" ++ joinSegs segs
  else if segs = [] then "." else joinSegs segs

/-- Normalize a path, forcing interpretation as an absolute path. -/
def normalizeAbs (p : String) : String :=
  "/" ++ joinSegs (normStack true [] (splitOnSlash p))

/-- Node posix `path.resolve(base, p)` for an absolute `base`. -/
def nodeResolve2 (base p : String) : String :=
  if jsStartsWith p "/" then normalizeAbs p else normalizeAbs (base ++ "/" ++ p)

/-- Node posix `path.resolve(base)` for an absolute `base`. -/
def nodeResolve1 (base : String) : String := normalizeAbs base

/-- `safeResolvePath` from the library section of `entrypoint.sh`:
normalizes, rejects traversal (`..`-prefix or an embedded `/../`), resolves
against the workspace root, re-checks the root prefix, and requires the
target to exist.  `root` is `resolveWorkspaceRoot()` (`none` = no workspace);
`fs` is the set of existing absolute paths (`existsSync`). -/
def safeResolvePath (root : Option String) (fs : List String)
    (relativePath : String) : Option String :=
  match root with
  | none => none
  | some r =>
    let normalized := normalize relativePath
    if jsStartsWith normalized ".." || jsIncludes normalized "/../" then none
    else
      let absolute := nodeResolve2 r normalized
      if !(jsStartsWith absolute (nodeResolve1 r)) then none
      else if !(fs.contains absolute) then none
      else some absolute

/-! ## Workspace database model

A `DB` is the relevant contents of one `workspace.duckdb` file.  Queries are
pure functions of a `DB`; `duckdbExecOnFile` statements are `DB → DB`
transitions on the targeted file. -/

/-- A row of the `objects` table (columns used by the verified routes). -/
structure ObjectRow where
  id : String
  name : String
  deriving DecidableEq, Repr

/-- A row of the `fields` table (columns used by the verified routes).
`enum_values` is stored in decoded form (see the module docstring);
`enum_colors` stays the raw JSON string, which the verified code never
parses or rewrites. -/
structure FieldRow where
  id : String
  object_id : String
  enum_values : Option (List String)
  enum_colors : Option String
  deriving DecidableEq, Repr

/-- A row of the `entries` table. -/
structure EntryRow where
  id : String
  object_id : String
  deriving DecidableEq, Repr

/-- A row of the `entry_fields` table (`value` is nullable). -/
structure EntryFieldRow where
  entry_id : String
  field_id : String
  value : Option String
  deriving DecidableEq, Repr

/-- The contents of one `workspace.duckdb` file. -/
structure DB where
  objects : List ObjectRow
  fields : List FieldRow
  entries : List EntryRow
  entry_fields : List EntryFieldRow
  deriving DecidableEq, Repr

/-- Querying a missing or unreadable file yields empty results (the query
bridge swallows failures), modelled by an empty database. -/
def emptyDB : DB := ⟨[], [], [], []⟩

/-- Whether `SELECT id FROM objects WHERE name = '...' LIMIT 1` returns a
row. -/
def objectsHasName (db : DB) (name : String) : Bool :=
  db.objects.any (fun o => o.name = name)

/-- The discovered `workspace.duckdb` files in priority order (shallowest
first), each with its contents. -/
abbrev DBFiles := List (String × DB)

/-- Read the contents of a database file (`duckdbQueryOnFile` target). -/
def queryFileDB (dbs : DBFiles) (path : String) : DB :=
  ((dbs.find? (fun pd => pd.1 = path)).map (fun pd => pd.2)).getD emptyDB

/-- Apply a mutation to one database file (`duckdbExecOnFile` effect). -/
def updateDB (dbs : DBFiles) (path : String) (f : DB → DB) : DBFiles :=
  dbs.map (fun pd => if pd.1 = path then (pd.1, f pd.2) else pd)

/-- `findDuckDBForObject` (entrypoint.sh library section): scan the
discovered files in priority order and return the first whose `objects`
table contains a row with the given name. -/
def findDuckDBForObjectL (dbs : DBFiles) (objectName : String) : Option String :=
  (dbs.find? (fun pd => objectsHasName pd.2 objectName)).map (fun pd => pd.1)

/-! ## Route responses -/

/-- JSON values appearing in the verified route responses. -/
inductive JVal where
  | str : String → JVal
  | nat : Nat → JVal
  | bool : Bool → JVal
  deriving DecidableEq, Repr

/-- A `Response.json(...)` result: HTTP status plus JSON object body. -/
structure HttpResponse where
  status : Nat
  body : List (String × JVal)
  deriving DecidableEq, Repr

/-- `Response.json(body)` with the default status 200. -/
def jsonOk (body : List (String × JVal)) : HttpResponse := ⟨200, body⟩

/-- `Response.json({error: msg}, {status})`. -/
def jsonError (status : Nat) (msg : String) : HttpResponse :=
  ⟨status, [("error", JVal.str msg)]⟩

/-- Look up a key of a JSON response body. -/
def bodyGet (resp : HttpResponse) (k : String) : Option JVal :=
  (resp.body.find? (fun kv => kv.1 = k)).map (fun kv => kv.2)

/-- The route guard regex `^[a-zA-Z_][a-zA-Z0-9_]*$` (both mutation
routes). -/
def validObjectName (s : String) : Bool :=
  match s.data with
  | [] => false
  | c :: cs =>
    (c.isAlpha || c = '_') && cs.all (fun d => d.isAlphanum || d = '_')

/-! ## Mutation routes

`patchEnumRename` embeds the `PATCH .../fields/[fieldId]/enum-rename`
handler; `postBulkDelete` embeds the `POST .../entries/bulk-delete` handler.
Each returns the HTTP response together with the resulting state of the
database files.  The JS falsiness test `!oldValue` on a string is the empty
string test.  `List.indexOf` returns the list length where JS `indexOf`
returns `-1`, so the absence guard `idx === -1` becomes
`idx = enumValues.length`. -/

/-- `PATCH /api/workspace/objects/[name]/fields/[fieldId]/enum-rename` with
body `{oldValue, newValue}`. -/
def patchEnumRename (dbs : DBFiles)
    (name fieldId oldValue newValue : String) : HttpResponse × DBFiles :=
  if !(validObjectName name) then (jsonError 400 "Invalid object name", dbs)
  else
    match findDuckDBForObjectL dbs name with
    | none => (jsonError 404 "DuckDB not found", dbs)
    | some dbFile =>
      if oldValue = "" || newValue = "" then
        (jsonError 400 "oldValue and newValue are required", dbs)
      else if jsTrim oldValue = jsTrim newValue then
        (jsonOk [("ok", JVal.bool true), ("changed", JVal.nat 0)], dbs)
      else
        let db := queryFileDB dbs dbFile
        match (db.objects.filter (fun o => o.name = name)).take 1 with
        | [] => (jsonError 404 "Object not found", dbs)
        | obj :: _ =>
          let objectId := obj.id
          match db.fields.filter
              (fun f => f.id = fieldId && f.object_id = objectId) with
          | [] => (jsonError 404 "Field not found", dbs)
          | field :: _ =>
            let enumValues := field.enum_values.getD []
            let idx := enumValues.indexOf (jsTrim oldValue)
            if idx = enumValues.length then
              (jsonError 404 "Enum value not found", dbs)
            else if enumValues.contains (jsTrim newValue) then
              (jsonError 409 "Enum value already exists", dbs)
            else
              let newEnum := enumValues.set idx (jsTrim newValue)
              let dbs1 := updateDB dbs dbFile (fun d =>
                { d with fields := d.fields.map (fun f =>
                    if f.id = fieldId then { f with enum_values := some newEnum }
                    else f) })
              let updatedEntries := true
              let dbs2 := updateDB dbs1 dbFile (fun d =>
                { d with entry_fields := d.entry_fields.map (fun ef =>
                    if ef.field_id = fieldId && ef.value = some (jsTrim oldValue)
                    then { ef with value := some (jsTrim newValue) } else ef) })
              (jsonOk [("ok", JVal.bool true),
                ("updated", JVal.bool updatedEntries)], dbs2)

/-- `POST /api/workspace/objects/[name]/entries/bulk-delete` with body
`{entryIds}`. -/
def postBulkDelete (dbs : DBFiles) (name : String) (entryIds : List String) :
    HttpResponse × DBFiles :=
  if !(validObjectName name) then (jsonError 400 "Invalid object name", dbs)
  else
    match findDuckDBForObjectL dbs name with
    | none => (jsonError 404 "DuckDB not found", dbs)
    | some dbFile =>
      if entryIds.isEmpty then
        (jsonError 400 "entryIds must be a non-empty array", dbs)
      else
        let db := queryFileDB dbs dbFile
        match (db.objects.filter (fun o => o.name = name)).take 1 with
        | [] => (jsonError 404 "Object not found", dbs)
        | obj :: _ =>
          let objectId := obj.id
          let dbs1 := updateDB dbs dbFile (fun d =>
            { d with entry_fields :=
                d.entry_fields.filter (fun ef => !(entryIds.contains ef.entry_id)) })
          let dbs2 := updateDB dbs1 dbFile (fun d =>
            { d with entries :=
                d.entries.filter (fun e =>
                  !(entryIds.contains e.id && e.object_id = objectId)) })
          (jsonOk [("ok", JVal.bool true),
            ("deletedCount", JVal.nat entryIds.length)], dbs2)

/-! ## Multi-file aggregate query with dedupe (`duckdbQueryAll`) -/

/-- A result row parsed from the CLI's JSON output: a JS object, i.e. an
insertion-ordered association of keys to values. -/
abbrev Row := List (String × JVal)

/-- JS `row[key]` (`none` models `undefined`). -/
def rowGet (r : Row) (k : String) : Option JVal :=
  (r.find? (fun kv => kv.1 = k)).map (fun kv => kv.2)

/-- The inner loop of `duckdbQueryAll` over one file's rows: push each row
unless its dedupe-key value is already in the seen-set; returns the pushed
rows and the updated seen-set. -/
def mergeRows (dedupeKey : Option String) (seen : List (Option JVal)) :
    List Row → List Row × List (Option JVal)
  | [] => ([], seen)
  | row :: rest =>
    match dedupeKey with
    | none =>
      let out := mergeRows none seen rest
      (row :: out.1, out.2)
    | some k =>
      let kv := rowGet row k
      if seen.contains kv then mergeRows (some k) seen rest
      else
        let out := mergeRows (some k) (kv :: seen) rest
        (row :: out.1, out.2)

/-- The outer loop of `duckdbQueryAll`: files in priority order sharing one
seen-set. -/
def queryAllGo (dedupeKey : Option String) (seen : List (Option JVal)) :
    List (List Row) → List Row
  | [] => []
  | file :: rest =>
    let out := mergeRows dedupeKey seen file
    out.1 ++ queryAllGo dedupeKey out.2 rest

/-- `duckdbQueryAll` (entrypoint.sh library section): run the same query
against every discovered file in priority order and merge the results,
dropping any row whose dedupe-key value was already seen.  `files` holds the
rows the query yields on each discovered file, in priority order. -/
def duckdbQueryAll (dedupeKey : Option String) (files : List (List Row)) :
    List Row :=
  queryAllGo dedupeKey [] files

/-! ## Hierarchical discovery (`discoverDuckDBPaths`) -/

/-- A directory of the workspace tree: its name, whether it contains a
`workspace.duckdb` (and that file's contents), and its subdirectories in
`readdirSync` order.  Non-directory entries are skipped by the walk and not
modelled. -/
inductive DirTree where
  | node (name : String) (hasDb : Bool) (db : DB) (children : List DirTree)

/-- The name of the directory. -/
def DirTree.dirName : DirTree → String
  | .node n _ _ _ => n

/-- A discovered database file: absolute path, depth from the workspace
root, and contents. -/
structure DiscItem where
  path : String
  depth : Nat
  db : DB

mutual

/-- The recursive `walk` of `discoverDuckDBPaths`: record this directory's
`workspace.duckdb` if present, then recurse into subdirectories at
depth + 1, skipping hidden directories and `tmp`/`exports`/`node_modules`. -/
def walkDir (dirPath : String) (depth : Nat) : DirTree → List DiscItem
  | .node _ hasDb db children =>
    (if hasDb then [⟨dirPath ++ "/workspace.duckdb", depth, db⟩] else []) ++
    walkChildren dirPath depth children

/-- Walk the subdirectory list in `readdirSync` order. -/
def walkChildren (dirPath : String) (depth : Nat) : List DirTree → List DiscItem
  | [] => []
  | c :: cs =>
    (if jsStartsWith c.dirName "." ||
        (c.dirName = "tmp" || c.dirName = "exports" ||
          c.dirName = "node_modules")
     then []
     else walkDir (dirPath ++ "/" ++ c.dirName) (depth + 1) c) ++
    walkChildren dirPath depth cs

end

/-- Stable insertion into a depth-sorted list: insert after strictly
shallower items and before items of equal or deeper depth. -/
def insertByDepth (x : DiscItem) : List DiscItem → List DiscItem
  | [] => [x]
  | y :: ys =>
    if y.depth < x.depth then y :: insertByDepth x ys else x :: y :: ys

/-- Stable sort by depth (JS `Array.prototype.sort` with
`(a, b) => a.depth - b.depth` is stable). -/
def sortByDepth : List DiscItem → List DiscItem
  | [] => []
  | x :: xs => insertByDepth x (sortByDepth xs)

/-- `discoverDuckDBPaths`: walk the tree from the workspace root (depth 0)
and sort the found files by depth, shallowest first, preserving discovery
order on ties. -/
def discoverItems (rootPath : String) (t : DirTree) : List DiscItem :=
  sortByDepth (walkDir rootPath 0 t)

/-- `findDuckDBForObject` applied to the discovered files. -/
def findDuckDBForObjectItems (items : List DiscItem) (objectName : String) :
    Option String :=
  (items.find? (fun it => objectsHasName it.db objectName)).map
    (fun it => it.path)

/-! ## Client-side EAV pivot (`pivotEavRows`, src/unnamed/part_003) -/

/-- A raw EAV row from the fallback query joining
entries/entry_fields/fields. -/
structure EavRow where
  entry_id : String
  created_at : String
  updated_at : String
  field_name : String
  value : Option String
  deriving DecidableEq, Repr

/-- A pivoted record: one plain JS object, exactly as `pivotEavRows` builds
it — an insertion-ordered association of string keys to values.  The seed
keys `entry_id`/`created_at`/`updated_at` and the field values live in the
SAME object, so `entry[row.field_name] = row.value` for a field literally
named like a seed key overwrites the seeded value.  Values are
`Option String` (`none` = JS `null`); the seed values are strings, hence
`some`. -/
abbrev PivotObj := List (String × Option String)

/-- JS `obj[k] = v` on a string-keyed object: an existing key keeps its
position, a new key is appended. -/
def setProp (ps : List (String × Option String)) (k : String)
    (v : Option String) : List (String × Option String) :=
  match ps with
  | [] => [(k, v)]
  | (k', v') :: rest =>
    if k' = k then (k, v) :: rest else (k', v') :: setProp rest k v

/-- JS `obj[k]` read: outer `none` = the key is absent (`undefined`). -/
def objGet (o : PivotObj) (k : String) : Option (Option String) :=
  (o.find? (fun kv => kv.1 = k)).map (fun kv => kv.2)

/-- The seed object `{entry_id: row.entry_id, created_at: row.created_at,
updated_at: row.updated_at}` a new group starts from. -/
def seedObj (row : EavRow) : PivotObj :=
  [("entry_id", some row.entry_id), ("created_at", some row.created_at),
   ("updated_at", some row.updated_at)]

/-- The get-or-create part of one `pivotEavRows` iteration: when the
grouped map (an insertion-ordered association list, like a JS `Map`) has no
group for the row's entry id yet, append a group holding the seed object. -/
def pivotAcc1 (acc : List (String × PivotObj)) (row : EavRow) :
    List (String × PivotObj) :=
  if (acc.find? (fun kv => kv.1 = row.entry_id)).isSome then acc
  else acc ++ [(row.entry_id, seedObj row)]

/-- The property assignment `entry[row.field_name] = row.value` applied to
the grouped map: the object stored under the row's entry id — the same
object that holds the seed keys — gets the property set, every other group
is untouched. -/
def propUpdate (row : EavRow) (kv : String × PivotObj) : String × PivotObj :=
  if kv.1 = row.entry_id then
    (kv.1, setProp kv.2 row.field_name row.value)
  else kv

/-- One iteration of the `pivotEavRows` loop: get or create the row's group,
then set one property on it when the field name is truthy (non-empty). -/
def pivotStep (acc : List (String × PivotObj)) (row : EavRow) :
    List (String × PivotObj) :=
  if row.field_name = "" then pivotAcc1 acc row
  else (pivotAcc1 acc row).map (propUpdate row)

/-- The `pivotEavRows` loop over all rows. -/
def pivotGo (acc : List (String × PivotObj)) :
    List EavRow → List (String × PivotObj)
  | [] => acc
  | row :: rest => pivotGo (pivotStep acc row) rest

/-- `pivotEavRows` (src/unnamed/part_003): group raw EAV rows by entry id
and return the group objects in first-appearance order (`Map.values()`). -/
def pivotEavRows (rows : List EavRow) : List PivotObj :=
  (pivotGo [] rows).map (fun kv => kv.2)

/-- Auxiliary predicate for stating the pivot lemmas: a `find?` result on
the grouped map exists and its object carries the key `k`. -/
def hasPropKey (o : Option (String × PivotObj)) (k : String) : Prop :=
  ∃ kvp, o = some kvp ∧ k ∈ kvp.2.map Prod.fst

/-! ## Concrete demonstration data for the claim instances -/

/-- A demonstration database: one object `tasks` with one enum field. -/
def db0 : DB :=
  { objects := [⟨"o1", "tasks"⟩],
    fields := [⟨"f1", "o1", some ["todo", "doing", "done"],
      some "[\"#aaa\",\"#bbb\",\"#ccc\"]"⟩],
    entries := [⟨"e1", "o1"⟩, ⟨"e2", "o1"⟩, ⟨"e3", "o2"⟩],
    entry_fields := [⟨"e1", "f1", some "doing"⟩, ⟨"e2", "f1", some "todo"⟩,
      ⟨"e3", "f2", some "doing"⟩] }

/-- A single discovered database file holding `db0`. -/
def dbs0 : DBFiles := [("/ws/workspace.duckdb", db0)]

/-- Like `db0` but with two entry-field rows valued `doing` on `f1`. -/
def dbC2 : DB :=
  { db0 with entry_fields := [⟨"e1", "f1", some "doing"⟩,
      ⟨"e2", "f1", some "doing"⟩] }

/-- A single discovered database file holding `dbC2`. -/
def dbsC2 : DBFiles := [("/ws/workspace.duckdb", dbC2)]

/-- A database containing only an object named `Foo` with the given id. -/
def dbFoo (oid : String) : DB :=
  { objects := [⟨oid, "Foo"⟩], fields := [], entries := [], entry_fields := [] }

/-- A workspace tree with `Foo` in the root database (depth 0) and in a
subdirectory database (depth 1). -/
def treeFoo : DirTree :=
  .node "ws" true (dbFoo "r") [.node "sub" true (dbFoo "s") []]

/-- The raw EAV rows of the spec's pivot example: `e1` has `name` and `age`,
`e2` has `name` only. -/
def eavRowsC6 : List EavRow :=
  [⟨"e1", "t1", "u1", "name", some "Alice"⟩,
   ⟨"e1", "t1", "u1", "age", some "30"⟩,
   ⟨"e2", "t2", "u2", "name", some "Bob"⟩]

/-! ### Structure of the normalization stack

In the output of the normalization pass, every surviving `..` segment sits in
a leading run: `normStep` only ever pushes `..` onto a stack that is empty or
already all `..`.  Hence a normalized relative path that still contains a
`..` segment starts with `..`, which is exactly what `safeResolvePath`'s
first guard rejects. -/

/-- Invariant of the normalization stack: the retained `..` segments form the
bottom of the stack, and an absolute path retains none. -/
def NormInv (isAbs : Bool) (acc : List String) : Prop :=
  ∃ front k, acc = front ++ List.replicate k ".." ∧ ".." ∉ front ∧
    (isAbs = true → k = 0)

theorem normInv_nil (isAbs : Bool) : NormInv isAbs [] :=
  ⟨[], 0, by simp, by simp, fun _ => rfl⟩

theorem normStep_inv (isAbs : Bool) (acc : List String) (seg : String)
    (h : NormInv isAbs acc) : NormInv isAbs (normStep isAbs acc seg) := by
  obtain ⟨front, k, hacc, hfront, habs⟩ := h
  subst hacc
  unfold normStep
  split
  · exact ⟨front, k, rfl, hfront, habs⟩
  · split
    · -- seg = ".."
      cases front with
      | nil =>
        cases k with
        | zero =>
          simp only [List.replicate_zero, List.nil_append]
          split
          · exact ⟨[], 0, rfl, by simp, fun _ => rfl⟩
          · refine ⟨[], 1, by simp [List.replicate_succ], by simp,
              fun hh => ?_⟩
            simp_all
        | succ k =>
          have hAbsF : isAbs ≠ true := fun hh => by simpa using habs hh
          simp only [List.nil_append, List.replicate_succ, if_pos rfl]
          exact ⟨[], k + 2, by simp [List.replicate_succ], by simp,
            fun hh => absurd hh hAbsF⟩
      | cons f fr =>
        have hf : f ≠ ".." := fun hh => hfront (by simp [hh])
        simp only [List.cons_append]
        rw [if_neg hf]
        exact ⟨fr, k, rfl, fun hh => hfront (List.mem_cons_of_mem _ hh),
          habs⟩
    · rename_i hskip hdd
      refine ⟨seg :: front, k, rfl, ?_, habs⟩
      intro hh
      rcases List.mem_cons.mp hh with hh | hh
      · exact hdd hh.symm
      · exact hfront hh

theorem normStack_shape (isAbs : Bool) (segs : List String) :
    ∀ acc : List String, NormInv isAbs acc →
      ∃ front k, normStack isAbs acc segs = List.replicate k ".." ++ front ∧
        ".." ∉ front ∧ (isAbs = true → k = 0) := by
  induction segs with
  | nil =>
    intro acc hinv
    obtain ⟨front, k, hacc, hfront, habs⟩ := hinv
    refine ⟨front.reverse, k, ?_, by simpa using hfront, habs⟩
    simp [normStack, hacc, List.reverse_append]
  | cons seg rest ih =>
    intro acc hinv
    simpa [normStack] using ih (normStep isAbs acc seg)
      (normStep_inv isAbs acc seg hinv)

theorem normalizeSegs_shape (p : String) :
    ∃ front k, normalizeSegs p = List.replicate k ".." ++ front ∧
      ".." ∉ front ∧ (jsStartsWith p "/" = true → k = 0) :=
  normStack_shape _ _ [] (normInv_nil _)

/-- If a `..` segment survives normalization, the path was relative and the
normalized segment list starts with `..`. -/
theorem mem_normalizeSegs_dd (p : String) (h : ".." ∈ normalizeSegs p) :
    jsStartsWith p "/" = false ∧ ∃ t, normalizeSegs p = ".." :: t := by
  obtain ⟨front, k, hsegs, hfront, habs⟩ := normalizeSegs_shape p
  match k, hsegs with
  | 0, hsegs =>
    rw [hsegs] at h
    simp only [List.replicate, List.nil_append] at h
    exact absurd h hfront
  | k + 1, hsegs =>
    constructor
    · cases habs' : jsStartsWith p "/" with
      | false => rfl
      | true => simpa using habs habs'
    · exact ⟨List.replicate k ".." ++ front, by simp [hsegs, List.replicate]⟩

theorem jsStartsWith_append (a b : String) : jsStartsWith (a ++ b) a = true := by
  simp [jsStartsWith, String.data_append, List.isPrefixOf_iff_prefix]

theorem jsStartsWith_refl (a : String) : jsStartsWith a a = true := by
  simp [jsStartsWith, List.isPrefixOf_iff_prefix]

/-- A normalized path that still contains a traversal segment starts with
`..` as a string. -/
theorem normalize_dd_startsWith (p : String) (h : ".." ∈ normalizeSegs p) :
    jsStartsWith (normalize p) ".." = true := by
  obtain ⟨habs, t, ht⟩ := mem_normalizeSegs_dd p h
  have hne : normalizeSegs p ≠ [] := by simp [ht]
  rw [normalize]
  simp only [habs, Bool.false_eq_true, if_false, ht]
  cases t with
  | nil => simpa using jsStartsWith_refl ".."
  | cons x xs =>
    simp only [joinSegs, ← String.append_assoc]
    exact jsStartsWith_append ".." ("/" ++ joinSegs (x :: xs))

theorem jsStartsWith_normalizeAbs_slash (q : String) :
    jsStartsWith (normalizeAbs q) "/" = true := by
  rw [normalizeAbs]
  exact jsStartsWith_append "/" _

theorem jsStartsWith_nodeResolve2_slash (r q : String) :
    jsStartsWith (nodeResolve2 r q) "/" = true := by
  rw [nodeResolve2]
  split <;> exact jsStartsWith_normalizeAbs_slash _

/-- Any input whose normalized form still contains a `..` segment is
rejected by `safeResolvePath`. -/
theorem safeResolvePath_of_dd (root : Option String) (fs : List String)
    (p : String) (h : ".." ∈ normalizeSegs p) :
    safeResolvePath root fs p = none := by
  cases root with
  | none => rfl
  | some r =>
    have hdd := normalize_dd_startsWith p h
    simp [safeResolvePath, hdd]

/-- Any non-null result of `safeResolvePath` is an absolute path prefixed by
the resolved workspace root. -/
theorem safeResolvePath_some_rootPrefixed (r : String) (fs : List String)
    (p a : String) (h : safeResolvePath (some r) fs p = some a) :
    jsStartsWith a (nodeResolve1 r) = true ∧ jsStartsWith a "/" = true := by
  simp only [safeResolvePath] at h
  split at h
  · simp at h
  · split at h
    · simp at h
    · split at h
      · simp at h
      · rename_i hguard hfs
        injection h with h
        subst h
        exact ⟨by simpa using hguard,
          jsStartsWith_nodeResolve2_slash r (normalize p)⟩

example : normalize "a/../../b" = "../b" := by decide
example : normalize "../../etc/passwd" = "../../etc/passwd" := by decide
example : normalize "assets/ok.png" = "assets/ok.png" := by decide
example :
    safeResolvePath (some "/ws") ["/ws", "/ws/assets", "/ws/assets/ok.png"]
      "assets/ok.png" = some "/ws/assets/ok.png" := by decide
example :
    safeResolvePath (some "/ws") ["/ws", "/ws/assets", "/ws/assets/ok.png"]
      "../../etc/passwd" = none := by decide

/-- C5: `safeResolvePath` returns null for every input whose normalized form
contains a parent-directory traversal segment — in particular for
`"../../etc/passwd"` and `"a/../../b"` under every workspace root and
filesystem — and every non-null result is an absolute path prefixed by the
resolved workspace root; for the existing file `"assets/ok.png"` under root
`"/ws"` it returns the correct absolute path `"/ws/assets/ok.png"`. -/
theorem C5_safeResolve_traversal_and_root :
    (∀ (root : Option String) (fs : List String) (p : String),
      ".." ∈ normalizeSegs p → safeResolvePath root fs p = none) ∧
    (∀ (r : String) (fs : List String) (p a : String),
      safeResolvePath (some r) fs p = some a →
      jsStartsWith a (nodeResolve1 r) = true ∧ jsStartsWith a "/" = true) ∧
    (∀ (root : Option String) (fs : List String),
      safeResolvePath root fs "../../etc/passwd" = none) ∧
    (∀ (root : Option String) (fs : List String),
      safeResolvePath root fs "a/../../b" = none) ∧
    safeResolvePath (some "/ws") ["/ws", "/ws/assets", "/ws/assets/ok.png"]
      "assets/ok.png" = some "/ws/assets/ok.png" := by
  refine ⟨safeResolvePath_of_dd, safeResolvePath_some_rootPrefixed, ?_, ?_, by decide⟩
  · intro root fs
    exact safeResolvePath_of_dd root fs _ (by decide)
  · intro root fs
    exact safeResolvePath_of_dd root fs _ (by decide)

/-- Witness for C5 at concrete inputs: the traversal input is rejected and a
concrete non-null result carries the root prefix. -/
theorem C5_safeResolve_traversal_and_root_witness :
    safeResolvePath (some "/ws") ["/ws", "/ws/assets", "/ws/assets/ok.png"]
      "../../etc/passwd" = none ∧
    (jsStartsWith "/ws/assets/ok.png" (nodeResolve1 "/ws") = true ∧
      jsStartsWith "/ws/assets/ok.png" "/" = true) :=
  ⟨C5_safeResolve_traversal_and_root.1 (some "/ws")
      ["/ws", "/ws/assets", "/ws/assets/ok.png"] "../../etc/passwd" (by decide),
   C5_safeResolve_traversal_and_root.2.1 "/ws"
      ["/ws", "/ws/assets", "/ws/assets/ok.png"] "assets/ok.png"
      "/ws/assets/ok.png" (by decide)⟩

/-! ### Dedupe-on-aggregate (`duckdbQueryAll`) -/

theorem mergeRows_append (dk : Option String) (seen : List (Option JVal))
    (xs ys : List Row) :
    mergeRows dk seen (xs ++ ys) =
      ((mergeRows dk seen xs).1 ++
          (mergeRows dk (mergeRows dk seen xs).2 ys).1,
        (mergeRows dk (mergeRows dk seen xs).2 ys).2) := by
  induction xs generalizing seen with
  | nil => simp [mergeRows]
  | cons x xs ih =>
    cases dk with
    | none => simp [mergeRows, ih]
    | some k =>
      by_cases h : rowGet x k ∈ seen <;>
        simp [mergeRows, h, ih]

theorem queryAllGo_flatten (dk : Option String) (seen : List (Option JVal))
    (files : List (List Row)) :
    queryAllGo dk seen files = (mergeRows dk seen files.flatten).1 := by
  induction files generalizing seen with
  | nil => simp [queryAllGo, mergeRows]
  | cons f fs ih => simp [queryAllGo, List.flatten_cons, mergeRows_append, ih]

theorem mergeRows_filter_key (k : String) (v : Option JVal)
    (seen : List (Option JVal)) (xs : List Row) :
    (mergeRows (some k) seen xs).1.filter (fun r => decide (rowGet r k = v)) =
      if seen.contains v then []
      else (xs.filter (fun r => decide (rowGet r k = v))).take 1 := by
  induction xs generalizing seen with
  | nil => simp [mergeRows]
  | cons x xs ih =>
    by_cases hx : rowGet x k ∈ seen
    · by_cases hv : rowGet x k = v
      · subst hv
        simp [mergeRows, hx, ih, List.filter_cons]
      · simp [mergeRows, hx, ih, List.filter_cons, hv]
    · by_cases hv : rowGet x k = v
      · subst hv
        have hcons : rowGet x k ∈ (rowGet x k) :: seen := by simp
        simp [mergeRows, hx, ih, List.filter_cons, hcons]
      · have hcons : (v ∈ (rowGet x k) :: seen) ↔ v ∈ seen := by
          simp [List.mem_cons, Ne.symm hv]
        simp [mergeRows, hx, ih, List.filter_cons, hv, hcons]

theorem mergeRows_sublist (dk : Option String) (seen : List (Option JVal))
    (xs : List Row) : (mergeRows dk seen xs).1.Sublist xs := by
  induction xs generalizing seen with
  | nil => simp [mergeRows]
  | cons x xs ih =>
    cases dk with
    | none => simpa [mergeRows] using (ih seen).cons₂ x
    | some k =>
      by_cases h : rowGet x k ∈ seen
      · simpa [mergeRows, h] using (ih seen).cons x
      · simpa [mergeRows, h] using (ih (rowGet x k :: seen)).cons₂ x

/-- C4: for `duckdbQueryAll` with a dedupe key, the merged result keeps, for
every key value, exactly the first row carrying it in file-priority order
(so a row from a deeper file sharing a key value with an earlier file's row
is suppressed and the earlier file's row is kept), and the merged result is
a sublist of the priority-ordered concatenation (fresh-keyed rows appear in
file-priority order); concretely, duplicate `id = x` rows across a depth-0
and a depth-1 file merge to the depth-0 row alone. -/
theorem C4_queryAll_dedupe (k : String) (v : Option JVal)
    (files : List (List Row)) :
    ((duckdbQueryAll (some k) files).filter
        (fun r => decide (rowGet r k = v)) =
      (files.flatten.filter (fun r => decide (rowGet r k = v))).take 1) ∧
    (duckdbQueryAll (some k) files).Sublist files.flatten ∧
    duckdbQueryAll (some "id")
      [[[("id", JVal.str "x"), ("v", JVal.str "shallow")]],
       [[("id", JVal.str "x"), ("v", JVal.str "deep")],
        [("id", JVal.str "y"), ("v", JVal.str "fresh")]]] =
      [[("id", JVal.str "x"), ("v", JVal.str "shallow")],
       [("id", JVal.str "y"), ("v", JVal.str "fresh")]] := by
  refine ⟨?_, ?_, by decide⟩
  · rw [duckdbQueryAll, queryAllGo_flatten, mergeRows_filter_key]
    simp
  · rw [duckdbQueryAll, queryAllGo_flatten]
    exact mergeRows_sublist _ _ _

/-! ### Locator priority (`discoverDuckDBPaths` + `findDuckDBForObject`) -/

theorem mem_insertByDepth (x a : DiscItem) (l : List DiscItem) :
    a ∈ insertByDepth x l ↔ a = x ∨ a ∈ l := by
  induction l with
  | nil => simp [insertByDepth]
  | cons y ys ih =>
    by_cases hy : y.depth < x.depth
    · simp only [insertByDepth, if_pos hy, List.mem_cons, ih]
      tauto
    · simp only [insertByDepth, if_neg hy, List.mem_cons]

theorem insertByDepth_sorted (x : DiscItem) (l : List DiscItem)
    (h : l.Pairwise (fun a b => a.depth ≤ b.depth)) :
    (insertByDepth x l).Pairwise (fun a b => a.depth ≤ b.depth) := by
  induction l with
  | nil => simp [insertByDepth]
  | cons y ys ih =>
    rw [List.pairwise_cons] at h
    by_cases hy : y.depth < x.depth
    · rw [insertByDepth, if_pos hy, List.pairwise_cons]
      refine ⟨?_, ih h.2⟩
      intro a ha
      rcases (mem_insertByDepth x a ys).mp ha with rfl | ha
      · exact Nat.le_of_lt hy
      · exact h.1 a ha
    · rw [insertByDepth, if_neg hy, List.pairwise_cons]
      refine ⟨?_, List.pairwise_cons.mpr ⟨h.1, h.2⟩⟩
      intro a ha
      rcases List.mem_cons.mp ha with rfl | ha
      · exact Nat.le_of_not_lt hy
      · exact Nat.le_trans (Nat.le_of_not_lt hy) (h.1 a ha)

theorem mem_sortByDepth (a : DiscItem) (l : List DiscItem) :
    a ∈ sortByDepth l ↔ a ∈ l := by
  induction l with
  | nil => simp [sortByDepth]
  | cons x xs ih => simp [sortByDepth, mem_insertByDepth, ih]

theorem sortByDepth_sorted (l : List DiscItem) :
    (sortByDepth l).Pairwise (fun a b => a.depth ≤ b.depth) := by
  induction l with
  | nil => simp [sortByDepth]
  | cons x xs ih => exact insertByDepth_sorted x _ ih

/-- In a depth-sorted list, the first item satisfying a predicate has
minimal depth among all items satisfying it. -/
theorem find?_min_depth (p : DiscItem → Bool) (l : List DiscItem)
    (hs : l.Pairwise (fun a b => a.depth ≤ b.depth))
    (x : DiscItem) (hx : l.find? p = some x) :
    p x = true ∧ x ∈ l ∧ ∀ y ∈ l, p y = true → x.depth ≤ y.depth := by
  induction l with
  | nil => simp [List.find?] at hx
  | cons a as ih =>
    rw [List.pairwise_cons] at hs
    by_cases ha : p a
    · rw [List.find?_cons_of_pos _ ha] at hx
      injection hx with hx
      subst hx
      refine ⟨ha, List.mem_cons_self _ _, ?_⟩
      intro y hy hpy
      rcases List.mem_cons.mp hy with rfl | hy
      · exact Nat.le_refl _
      · exact hs.1 y hy
    · rw [List.find?_cons_of_neg _ ha] at hx
      obtain ⟨hpx, hmem, hmin⟩ := ih hs.2 hx
      refine ⟨hpx, List.mem_cons_of_mem _ hmem, ?_⟩
      intro y hy hpy
      rcases List.mem_cons.mp hy with rfl | hy
      · exact absurd hpy (by simpa using ha)
      · exact hmin y hy hpy

/-- C3: when the locator returns a path for an object name, that path is one
of the discovered files, its `objects` table contains the name, and its
depth is minimal among all discovered files containing the name; in
particular with `Foo` both in the depth-0 and the depth-1 file, the depth-0
file's path is returned. -/
theorem C3_locateOwner_shallowest (rootPath : String) (t : DirTree)
    (objectName p : String)
    (h : findDuckDBForObjectItems (discoverItems rootPath t) objectName =
      some p) :
    (∃ it ∈ discoverItems rootPath t, it.path = p ∧
      objectsHasName it.db objectName = true ∧
      ∀ it' ∈ discoverItems rootPath t,
        objectsHasName it'.db objectName = true → it.depth ≤ it'.depth) ∧
    findDuckDBForObjectItems (discoverItems "/ws" treeFoo) "Foo" =
      some "/ws/workspace.duckdb" := by
  refine ⟨?_, by decide⟩
  rw [findDuckDBForObjectItems] at h
  cases hf : (discoverItems rootPath t).find?
      (fun it => objectsHasName it.db objectName) with
  | none =>
    rw [hf] at h
    exact absurd h (by simp)
  | some it =>
    rw [hf] at h
    rw [show (some it).map (fun it => it.path) = some it.path from rfl] at h
    injection h with h
    obtain ⟨hp, hmem, hmin⟩ := find?_min_depth _ _
      (sortByDepth_sorted _) it hf
    exact ⟨it, hmem, h, hp, hmin⟩

/-- Witness for C3: the depth-0/depth-1 `Foo` tree, where the locator
returns the depth-0 path, which contains `Foo` at minimal depth. -/
theorem C3_locateOwner_shallowest_witness :
    ∃ it ∈ discoverItems "/ws" treeFoo, it.path = "/ws/workspace.duckdb" ∧
      objectsHasName it.db "Foo" = true ∧
      ∀ it' ∈ discoverItems "/ws" treeFoo,
        objectsHasName it'.db "Foo" = true → it.depth ≤ it'.depth :=
  (C3_locateOwner_shallowest "/ws" treeFoo "Foo" "/ws/workspace.duckdb"
    (by decide)).1

/-! ### Route-level helper lemmas -/

theorem updateDB_map_fst (dbs : DBFiles) (path : String) (f : DB → DB) :
    (updateDB dbs path f).map Prod.fst = dbs.map Prod.fst := by
  rw [updateDB, List.map_map]
  apply List.map_congr_left
  intro pd _
  by_cases h : pd.1 = path <;> simp [Function.comp, h]

theorem queryFileDB_updateDB_self (dbs : DBFiles) (path : String) (f : DB → DB)
    (h : path ∈ dbs.map Prod.fst) :
    queryFileDB (updateDB dbs path f) path = f (queryFileDB dbs path) := by
  induction dbs with
  | nil => simp at h
  | cons x xs ih =>
    by_cases hx : x.1 = path
    · simp [updateDB, queryFileDB, List.find?_cons, hx]
    · have h' : path ∈ xs.map Prod.fst := by
        simp only [List.map_cons, List.mem_cons] at h
        rcases h with h0 | h0
        · exact absurd h0.symm hx
        · exact h0
      have ihx := ih h'
      simp only [updateDB, queryFileDB, List.map_cons, List.find?_cons,
        hx, if_neg, if_false] at ihx ⊢
      simpa [hx] using ihx

theorem findDuckDBForObjectL_mem (dbs : DBFiles) (name p : String)
    (h : findDuckDBForObjectL dbs name = some p) : p ∈ dbs.map Prod.fst := by
  rw [findDuckDBForObjectL] at h
  cases hf : dbs.find? (fun pd => objectsHasName pd.2 name) with
  | none =>
    rw [hf] at h
    exact absurd h (by simp)
  | some pd =>
    rw [hf, show (some pd).map (fun pd => pd.1) = some pd.1 from rfl] at h
    injection h with h
    subst h
    exact List.mem_map_of_mem Prod.fst (List.mem_of_find?_eq_some hf)

/-- Normal form of a successful (non-no-op) enum rename: the response is
`{ok: true, updated: true}` and the two `UPDATE` statements are applied to
the owning file in order. -/
theorem patchEnumRename_success_eq
    (dbs : DBFiles) (name fieldId oldValue newValue dbFile : String)
    (db : DB) (obj : ObjectRow) (field : FieldRow) (fieldsRest : List FieldRow)
    (vals : List String) (i : Nat)
    (hname : validObjectName name = true)
    (hfind : findDuckDBForObjectL dbs name = some dbFile)
    (hold : oldValue ≠ "") (hnew : newValue ≠ "")
    (hne : jsTrim oldValue ≠ jsTrim newValue)
    (hdb : queryFileDB dbs dbFile = db)
    (hobj : (db.objects.filter (fun o => o.name = name)).take 1 = [obj])
    (hfield : db.fields.filter
        (fun f => f.id = fieldId && f.object_id = obj.id) = field :: fieldsRest)
    (hvals : field.enum_values = some vals)
    (hidx : vals.indexOf (jsTrim oldValue) = i)
    (hlt : i < vals.length)
    (hnomem : jsTrim newValue ∉ vals) :
    patchEnumRename dbs name fieldId oldValue newValue =
      (jsonOk [("ok", JVal.bool true), ("updated", JVal.bool true)],
        updateDB (updateDB dbs dbFile (fun d =>
            { d with fields := d.fields.map (fun f =>
                if f.id = fieldId
                then { f with
                        enum_values := some (vals.set i (jsTrim newValue)) }
                else f) }))
          dbFile (fun d =>
            { d with entry_fields := d.entry_fields.map (fun ef =>
                if ef.field_id = fieldId && ef.value = some (jsTrim oldValue)
                then { ef with value := some (jsTrim newValue) }
                else ef) })) := by
  simp [patchEnumRename, hname, hfind, hold, hnew, hne, hdb, hobj, hfield,
    hvals, hidx, Nat.ne_of_lt hlt, hnomem]

/-- C1: a successful enum rename yields an `enum_values` array equal to the
old array with only index `i` (the index of the trimmed old value) replaced
by the trimmed new value, leaves `enum_colors` untouched, and rewrites
exactly the entry-field rows of that field whose value equals the trimmed
old value to the trimmed new value. -/
theorem C1_enum_rename_in_place
    (dbs : DBFiles) (name fieldId oldValue newValue dbFile : String)
    (db : DB) (obj : ObjectRow) (field : FieldRow) (fieldsRest : List FieldRow)
    (vals : List String) (i : Nat)
    (hname : validObjectName name = true)
    (hfind : findDuckDBForObjectL dbs name = some dbFile)
    (hold : oldValue ≠ "") (hnew : newValue ≠ "")
    (hne : jsTrim oldValue ≠ jsTrim newValue)
    (hdb : queryFileDB dbs dbFile = db)
    (hobj : (db.objects.filter (fun o => o.name = name)).take 1 = [obj])
    (hfield : db.fields.filter
        (fun f => f.id = fieldId && f.object_id = obj.id) = field :: fieldsRest)
    (hvals : field.enum_values = some vals)
    (hidx : vals.indexOf (jsTrim oldValue) = i)
    (hlt : i < vals.length)
    (hnomem : jsTrim newValue ∉ vals) :
    (patchEnumRename dbs name fieldId oldValue newValue).1 =
      jsonOk [("ok", JVal.bool true), ("updated", JVal.bool true)] ∧
    queryFileDB (patchEnumRename dbs name fieldId oldValue newValue).2 dbFile =
      { db with
          fields := db.fields.map (fun f =>
            if f.id = fieldId
            then { f with
                    enum_values := some (vals.set i (jsTrim newValue)) }
            else f),
          entry_fields := db.entry_fields.map (fun ef =>
            if ef.field_id = fieldId && ef.value = some (jsTrim oldValue)
            then { ef with value := some (jsTrim newValue) }
            else ef) } ∧
    (queryFileDB (patchEnumRename dbs name fieldId oldValue newValue).2
        dbFile).fields.map (fun f => f.enum_colors) =
      db.fields.map (fun f => f.enum_colors) := by
  have hmem : dbFile ∈ dbs.map Prod.fst :=
    findDuckDBForObjectL_mem dbs name dbFile hfind
  have hmain := patchEnumRename_success_eq dbs name fieldId oldValue newValue
    dbFile db obj field fieldsRest vals i hname hfind hold hnew hne hdb hobj
    hfield hvals hidx hlt hnomem
  have hstate : queryFileDB
      (patchEnumRename dbs name fieldId oldValue newValue).2 dbFile =
      { db with
          fields := db.fields.map (fun f =>
            if f.id = fieldId
            then { f with
                    enum_values := some (vals.set i (jsTrim newValue)) }
            else f),
          entry_fields := db.entry_fields.map (fun ef =>
            if ef.field_id = fieldId && ef.value = some (jsTrim oldValue)
            then { ef with value := some (jsTrim newValue) }
            else ef) } := by
    rw [hmain]
    rw [queryFileDB_updateDB_self _ _ _ (by rw [updateDB_map_fst]; exact hmem)]
    rw [queryFileDB_updateDB_self _ _ _ hmem, hdb]
  refine ⟨by rw [hmain], hstate, ?_⟩
  rw [hstate]
  simp only [List.map_map]
  apply List.map_congr_left
  intro f _
  by_cases hf : f.id = fieldId <;> simp [Function.comp, hf]

/-- Witness for C1: renaming `doing` to `in_progress` on `db0` replaces
index 1 in place, keeps the colors, and rewrites the matching rows. -/
theorem C1_enum_rename_in_place_witness :
    (patchEnumRename dbs0 "tasks" "f1" "doing" "in_progress").1 =
      jsonOk [("ok", JVal.bool true), ("updated", JVal.bool true)] ∧
    queryFileDB (patchEnumRename dbs0 "tasks" "f1" "doing" "in_progress").2
        "/ws/workspace.duckdb" =
      { db0 with
          fields := db0.fields.map (fun f =>
            if f.id = "f1"
            then { f with
                    enum_values := some
                      (["todo", "doing", "done"].set 1 (jsTrim "in_progress")) }
            else f),
          entry_fields := db0.entry_fields.map (fun ef =>
            if ef.field_id = "f1" && ef.value = some (jsTrim "doing")
            then { ef with value := some (jsTrim "in_progress") }
            else ef) } ∧
    (queryFileDB (patchEnumRename dbs0 "tasks" "f1" "doing" "in_progress").2
        "/ws/workspace.duckdb").fields.map (fun f => f.enum_colors) =
      db0.fields.map (fun f => f.enum_colors) :=
  C1_enum_rename_in_place dbs0 "tasks" "f1" "doing" "in_progress"
    "/ws/workspace.duckdb" db0 ⟨"o1", "tasks"⟩
    ⟨"f1", "o1", some ["todo", "doing", "done"],
      some "[\"#aaa\",\"#bbb\",\"#ccc\"]"⟩ [] ["todo", "doing", "done"] 1
    (by decide) (by decide) (by decide) (by decide) (by decide) (by decide)
    (by decide) (by decide) (by decide) (by decide) (by decide) (by decide)

/-- C2 counterexample: in `dbsC2` the cascading update rewrites 2 rows, but
the response's `updated` field is the boolean `true` (the exec success
flag), not the row count 2 the claim requires. -/
theorem C2_updated_not_row_count_cex :
    (dbC2.entry_fields.filter
        (fun ef => ef.field_id = "f1" && ef.value = some "doing")).length = 2 ∧
    bodyGet (patchEnumRename dbsC2 "tasks" "f1" "doing" "in_progress").1
        "updated" = some (JVal.bool true) ∧
    bodyGet (patchEnumRename dbsC2 "tasks" "f1" "doing" "in_progress").1
        "updated" ≠ some (JVal.nat 2) := by decide

/-- C2 amended: on a successful non-no-op enum rename, the response body is
`{ok: true, updated: <flag>}` where the flag is the boolean success value of
the cascading `duckdbExecOnFile` call (`true` in the failure-free model),
not the count of rewritten rows. -/
theorem C2_updated_is_exec_flag
    (dbs : DBFiles) (name fieldId oldValue newValue dbFile : String)
    (db : DB) (obj : ObjectRow) (field : FieldRow) (fieldsRest : List FieldRow)
    (vals : List String) (i : Nat)
    (hname : validObjectName name = true)
    (hfind : findDuckDBForObjectL dbs name = some dbFile)
    (hold : oldValue ≠ "") (hnew : newValue ≠ "")
    (hne : jsTrim oldValue ≠ jsTrim newValue)
    (hdb : queryFileDB dbs dbFile = db)
    (hobj : (db.objects.filter (fun o => o.name = name)).take 1 = [obj])
    (hfield : db.fields.filter
        (fun f => f.id = fieldId && f.object_id = obj.id) = field :: fieldsRest)
    (hvals : field.enum_values = some vals)
    (hidx : vals.indexOf (jsTrim oldValue) = i)
    (hlt : i < vals.length)
    (hnomem : jsTrim newValue ∉ vals) :
    (patchEnumRename dbs name fieldId oldValue newValue).1 =
      jsonOk [("ok", JVal.bool true), ("updated", JVal.bool true)] ∧
    bodyGet (patchEnumRename dbs name fieldId oldValue newValue).1 "updated" =
      some (JVal.bool true) := by
  have hmain := patchEnumRename_success_eq dbs name fieldId oldValue newValue
    dbFile db obj field fieldsRest vals i hname hfind hold hnew hne hdb hobj
    hfield hvals hidx hlt hnomem
  rw [hmain]
  exact ⟨rfl, rfl⟩

/-- Witness for C2's amended statement on the two-row scenario. -/
theorem C2_updated_is_exec_flag_witness :
    (patchEnumRename dbsC2 "tasks" "f1" "doing" "in_progress").1 =
      jsonOk [("ok", JVal.bool true), ("updated", JVal.bool true)] ∧
    bodyGet (patchEnumRename dbsC2 "tasks" "f1" "doing" "in_progress").1
        "updated" = some (JVal.bool true) :=
  C2_updated_is_exec_flag dbsC2 "tasks" "f1" "doing" "in_progress"
    "/ws/workspace.duckdb" dbC2 ⟨"o1", "tasks"⟩
    ⟨"f1", "o1", some ["todo", "doing", "done"],
      some "[\"#aaa\",\"#bbb\",\"#ccc\"]"⟩ [] ["todo", "doing", "done"] 1
    (by decide) (by decide) (by decide) (by decide) (by decide) (by decide)
    (by decide) (by decide) (by decide) (by decide) (by decide) (by decide)

/-- C9 counterexample: `oldValue = ""` and `newValue = " "` are equal after
trimming, yet the handler answers 400 (the required-fields guard precedes
the no-op check), not success with a zero changed-count. -/
theorem C9_noop_requires_nonempty_cex :
    jsTrim "" = jsTrim " " ∧
    (patchEnumRename dbs0 "tasks" "f1" "" " ").1 =
      jsonError 400 "oldValue and newValue are required" ∧
    (patchEnumRename dbs0 "tasks" "f1" "" " ").1 ≠
      jsonOk [("ok", JVal.bool true), ("changed", JVal.nat 0)] := by decide

/-- C9 amended: for every enum rename request passing the preliminary
validation (valid object name, owning database found, both values
non-empty) whose values are equal after trimming, the handler returns
`{ok: true, changed: 0}` and performs no writes. -/
theorem C9_noop_returns_changed_zero
    (dbs : DBFiles) (name fieldId oldValue newValue dbFile : String)
    (hname : validObjectName name = true)
    (hfind : findDuckDBForObjectL dbs name = some dbFile)
    (hold : oldValue ≠ "") (hnew : newValue ≠ "")
    (heq : jsTrim oldValue = jsTrim newValue) :
    patchEnumRename dbs name fieldId oldValue newValue =
      (jsonOk [("ok", JVal.bool true), ("changed", JVal.nat 0)], dbs) := by
  simp [patchEnumRename, hname, hfind, hold, hnew, heq]

/-- Witness for C9's amended statement: renaming `doing` to `" doing "`. -/
theorem C9_noop_returns_changed_zero_witness :
    patchEnumRename dbs0 "tasks" "f1" "doing" " doing " =
      (jsonOk [("ok", JVal.bool true), ("changed", JVal.nat 0)], dbs0) :=
  C9_noop_returns_changed_zero dbs0 "tasks" "f1" "doing" " doing "
    "/ws/workspace.duckdb" (by decide) (by decide) (by decide) (by decide)
    (by decide)

/-- C8 counterexample: renaming `doing` to `doing` — the trimmed new value
is present in the enum array — returns the 200 no-op response, not 409 (the
no-op check precedes the duplicate guard). -/
theorem C8_conflict_not_always_409_cex :
    jsTrim "doing" ∈ ["todo", "doing", "done"] ∧
    db0.fields = [⟨"f1", "o1", some ["todo", "doing", "done"],
      some "[\"#aaa\",\"#bbb\",\"#ccc\"]"⟩] ∧
    (patchEnumRename dbs0 "tasks" "f1" "doing" "doing").1.status = 200 ∧
    (patchEnumRename dbs0 "tasks" "f1" "doing" "doing").2 = dbs0 ∧
    (patchEnumRename dbs0 "tasks" "f1" "doing" "doing").1.status ≠ 409 := by
  decide

/-- C8 amended: for every enum rename request passing the preliminary
validation whose trimmed old value differs from the trimmed new value and is
present in the field's enum array, renaming to a trimmed new value already
present in the array fails with 409 and performs no writes. -/
theorem C8_conflict_409_no_writes
    (dbs : DBFiles) (name fieldId oldValue newValue dbFile : String)
    (db : DB) (obj : ObjectRow) (field : FieldRow) (fieldsRest : List FieldRow)
    (vals : List String)
    (hname : validObjectName name = true)
    (hfind : findDuckDBForObjectL dbs name = some dbFile)
    (hold : oldValue ≠ "") (hnew : newValue ≠ "")
    (hne : jsTrim oldValue ≠ jsTrim newValue)
    (hdb : queryFileDB dbs dbFile = db)
    (hobj : (db.objects.filter (fun o => o.name = name)).take 1 = [obj])
    (hfield : db.fields.filter
        (fun f => f.id = fieldId && f.object_id = obj.id) = field :: fieldsRest)
    (hvals : field.enum_values = some vals)
    (holdmem : jsTrim oldValue ∈ vals)
    (hmem : jsTrim newValue ∈ vals) :
    patchEnumRename dbs name fieldId oldValue newValue =
      (jsonError 409 "Enum value already exists", dbs) := by
  have hlt : vals.indexOf (jsTrim oldValue) < vals.length :=
    List.indexOf_lt_length.mpr holdmem
  simp [patchEnumRename, hname, hfind, hold, hnew, hne, hdb, hobj, hfield,
    hvals, Nat.ne_of_lt hlt, hmem]

/-- Witness for C8's amended statement: renaming `doing` to `" done "`. -/
theorem C8_conflict_409_no_writes_witness :
    patchEnumRename dbs0 "tasks" "f1" "doing" " done " =
      (jsonError 409 "Enum value already exists", dbs0) :=
  C8_conflict_409_no_writes dbs0 "tasks" "f1" "doing" " done "
    "/ws/workspace.duckdb" db0 ⟨"o1", "tasks"⟩
    ⟨"f1", "o1", some ["todo", "doing", "done"],
      some "[\"#aaa\",\"#bbb\",\"#ccc\"]"⟩ [] ["todo", "doing", "done"]
    (by decide) (by decide) (by decide) (by decide) (by decide) (by decide)
    (by decide) (by decide) (by decide) (by decide) (by decide)

/-- Normal form of a successful bulk delete: the response carries
`deletedCount = entryIds.length` and the two `DELETE` statements are applied
to the owning file in order (entry-field rows unscoped, entry rows scoped to
the object id). -/
theorem postBulkDelete_success_eq (dbs : DBFiles) (name : String)
    (entryIds : List String) (dbFile : String) (db : DB) (obj : ObjectRow)
    (hname : validObjectName name = true)
    (hfind : findDuckDBForObjectL dbs name = some dbFile)
    (hids : entryIds ≠ [])
    (hdb : queryFileDB dbs dbFile = db)
    (hobj : (db.objects.filter (fun o => o.name = name)).take 1 = [obj]) :
    postBulkDelete dbs name entryIds =
      (jsonOk [("ok", JVal.bool true),
          ("deletedCount", JVal.nat entryIds.length)],
        updateDB (updateDB dbs dbFile (fun d =>
            { d with
                entry_fields := d.entry_fields.filter (fun ef =>
                  !(entryIds.contains ef.entry_id)) }))
          dbFile (fun d =>
            { d with
                entries := d.entries.filter (fun e =>
                  !(entryIds.contains e.id && e.object_id = obj.id)) })) := by
  simp [postBulkDelete, hname, hfind, hids, hdb, hobj]

/-- C7: bulk delete never removes entries of a different object — the entry
delete is scoped to the object id, so entries whose object id differs
survive even when their ids are listed — while every entry-field row
referencing a listed id is deleted. -/
theorem C7_bulk_delete_object_scoped (dbs : DBFiles) (name : String)
    (entryIds : List String) (dbFile : String) (db : DB) (obj : ObjectRow)
    (hname : validObjectName name = true)
    (hfind : findDuckDBForObjectL dbs name = some dbFile)
    (hids : entryIds ≠ [])
    (hdb : queryFileDB dbs dbFile = db)
    (hobj : (db.objects.filter (fun o => o.name = name)).take 1 = [obj]) :
    (∀ e ∈ db.entries, e.object_id ≠ obj.id →
      e ∈ (queryFileDB (postBulkDelete dbs name entryIds).2 dbFile).entries) ∧
    (queryFileDB (postBulkDelete dbs name entryIds).2 dbFile).entry_fields =
      db.entry_fields.filter (fun ef => !(entryIds.contains ef.entry_id)) ∧
    (queryFileDB (postBulkDelete dbs name entryIds).2 dbFile).entries =
      db.entries.filter (fun e =>
        !(entryIds.contains e.id && e.object_id = obj.id)) := by
  have hmem : dbFile ∈ dbs.map Prod.fst :=
    findDuckDBForObjectL_mem dbs name dbFile hfind
  have hmain := postBulkDelete_success_eq dbs name entryIds dbFile db obj
    hname hfind hids hdb hobj
  have hstate : queryFileDB (postBulkDelete dbs name entryIds).2 dbFile =
      { db with
          entry_fields := db.entry_fields.filter
            (fun ef => !(entryIds.contains ef.entry_id)),
          entries := db.entries.filter (fun e =>
            !(entryIds.contains e.id && e.object_id = obj.id)) } := by
    rw [hmain]
    rw [queryFileDB_updateDB_self _ _ _ (by rw [updateDB_map_fst]; exact hmem)]
    rw [queryFileDB_updateDB_self _ _ _ hmem, hdb]
  refine ⟨?_, by rw [hstate], by rw [hstate]⟩
  intro e he hne2
  rw [hstate]
  exact List.mem_filter.mpr ⟨he, by simp [hne2]⟩

/-- Witness for C7: entry `e3` belongs to object `o2`, so deleting
`["e1", "e3"]` on `tasks` (object `o1`) leaves it in place. -/
theorem C7_bulk_delete_object_scoped_witness :
    (⟨"e3", "o2"⟩ : EntryRow) ∈
      (queryFileDB (postBulkDelete dbs0 "tasks" ["e1", "e3"]).2
        "/ws/workspace.duckdb").entries :=
  (C7_bulk_delete_object_scoped dbs0 "tasks" ["e1", "e3"]
      "/ws/workspace.duckdb" db0 ⟨"o1", "tasks"⟩
      (by decide) (by decide) (by decide) (by decide) (by decide)).1
    ⟨"e3", "o2"⟩ (by decide) (by decide)

/-- C10: a successful bulk delete reports `deletedCount = entryIds.length`
regardless of how many entry rows are actually removed; the rows actually
removed are exactly those whose id is listed and whose object id matches. -/
theorem C10_deletedCount_is_input_length (dbs : DBFiles) (name : String)
    (entryIds : List String) (dbFile : String) (db : DB) (obj : ObjectRow)
    (hname : validObjectName name = true)
    (hfind : findDuckDBForObjectL dbs name = some dbFile)
    (hids : entryIds ≠ [])
    (hdb : queryFileDB dbs dbFile = db)
    (hobj : (db.objects.filter (fun o => o.name = name)).take 1 = [obj]) :
    (postBulkDelete dbs name entryIds).1 =
      jsonOk [("ok", JVal.bool true),
        ("deletedCount", JVal.nat entryIds.length)] ∧
    (queryFileDB (postBulkDelete dbs name entryIds).2 dbFile).entries =
      db.entries.filter (fun e =>
        !(entryIds.contains e.id && e.object_id = obj.id)) := by
  have hmem : dbFile ∈ dbs.map Prod.fst :=
    findDuckDBForObjectL_mem dbs name dbFile hfind
  have hmain := postBulkDelete_success_eq dbs name entryIds dbFile db obj
    hname hfind hids hdb hobj
  refine ⟨by rw [hmain], ?_⟩
  rw [hmain]
  rw [queryFileDB_updateDB_self _ _ _ (by rw [updateDB_map_fst]; exact hmem)]
  rw [queryFileDB_updateDB_self _ _ _ hmem, hdb]

/-- Witness for C10: deleting `["e1", "e3"]` on `tasks` reports
`deletedCount = 2` while only one entry (`e1`) is actually removed. -/
theorem C10_deletedCount_is_input_length_witness :
    ((postBulkDelete dbs0 "tasks" ["e1", "e3"]).1 =
      jsonOk [("ok", JVal.bool true), ("deletedCount", JVal.nat 2)]) ∧
    db0.entries.length = 3 ∧
    (queryFileDB (postBulkDelete dbs0 "tasks" ["e1", "e3"]).2
      "/ws/workspace.duckdb").entries.length = 2 :=
  ⟨(C10_deletedCount_is_input_length dbs0 "tasks" ["e1", "e3"]
      "/ws/workspace.duckdb" db0 ⟨"o1", "tasks"⟩
      (by decide) (by decide) (by decide) (by decide) (by decide)).1,
    by decide, by decide⟩


/-! ### EAV pivot lemmas -/

theorem setProp_keys (ps : List (String × Option String)) (k : String)
    (v : Option String) (k' : String) :
    k' ∈ (setProp ps k v).map Prod.fst ↔ k' ∈ ps.map Prod.fst ∨ k' = k := by
  induction ps with
  | nil => simp [setProp]
  | cons p rest ih =>
    obtain ⟨pk, pv⟩ := p
    by_cases hp : pk = k
    · subst hp
      simp [setProp]
      tauto
    · simp [setProp, hp, ih]
      tauto

theorem objGet_cons (a : String) (b : Option String) (rest : PivotObj)
    (k' : String) :
    objGet ((a, b) :: rest) k' = if a = k' then some b else objGet rest k' := by
  by_cases hak : a = k'
  · rw [objGet, List.find?_cons_of_pos _ (by simpa using hak), if_pos hak]
    rfl
  · rw [objGet, List.find?_cons_of_neg _ (by simpa using hak), if_neg hak]
    rfl

/-- Setting one key leaves every other key's value unchanged. -/
theorem setProp_get_other (o : PivotObj) (k : String) (v : Option String)
    (k' : String) (h : ¬ (k' = k)) :
    objGet (setProp o k v) k' = objGet o k' := by
  induction o with
  | nil =>
    simp only [setProp]
    rw [objGet_cons, if_neg (fun hh => h hh.symm)]
  | cons p rest ih =>
    obtain ⟨pk, pv⟩ := p
    by_cases hp : pk = k
    · have hks : ¬ (k = k') := fun hh => h hh.symm
      have hpks : ¬ (pk = k') := fun hh => h (by rw [← hh]; exact hp)
      simp only [setProp, if_pos hp]
      rw [objGet_cons, if_neg hks, objGet_cons, if_neg hpks]
    · simp only [setProp, if_neg hp]
      rw [objGet_cons, objGet_cons]
      by_cases hpk : pk = k'
      · rw [if_pos hpk, if_pos hpk]
      · rw [if_neg hpk, if_neg hpk, ih]

theorem objGet_seedObj_entry (row : EavRow) :
    objGet (seedObj row) "entry_id" = some (some row.entry_id) := by
  simp [seedObj, objGet, List.find?]

theorem objGet_seedObj_created (row : EavRow) :
    objGet (seedObj row) "created_at" = some (some row.created_at) := by
  simp [seedObj, objGet, List.find?]

theorem objGet_seedObj_updated (row : EavRow) :
    objGet (seedObj row) "updated_at" = some (some row.updated_at) := by
  simp [seedObj, objGet, List.find?]

theorem seedObj_keys (row : EavRow) (k : String) :
    k ∈ (seedObj row).map Prod.fst ↔
      (k = "entry_id" ∨ k = "created_at" ∨ k = "updated_at") := by
  simp [seedObj]

theorem find?_key_isSome {α : Type} (l : List (String × α)) (id : String) :
    (l.find? (fun kv => kv.1 = id)).isSome ↔ id ∈ l.map Prod.fst := by
  induction l with
  | nil => simp [List.find?]
  | cons x xs ih =>
    by_cases hx : x.1 = id
    · simp [List.find?_cons, hx]
    · simp [List.find?_cons, hx, ih, Ne.symm hx]

theorem find?_self_of_nodupKeys {α : Type} (l : List (String × α))
    (hnd : (l.map Prod.fst).Nodup) (kv : String × α) (h : kv ∈ l) :
    l.find? (fun x => x.1 = kv.1) = some kv := by
  induction l with
  | nil => simp at h
  | cons x xs ih =>
    simp only [List.map_cons, List.nodup_cons] at hnd
    rcases List.mem_cons.mp h with rfl | h
    · simp [List.find?_cons]
    · have hx : ¬ (x.1 = kv.1) := by
        intro hh
        exact hnd.1 (by rw [hh]; exact List.mem_map_of_mem Prod.fst h)
      simp [List.find?_cons, hx, ih hnd.2 h]

theorem find?_append_right_nomatch {α : Type} (l : List (String × α))
    (kv0 : String × α) (id : String) (h : ¬ (kv0.1 = id)) :
    (l ++ [kv0]).find? (fun kv => kv.1 = id) =
      l.find? (fun kv => kv.1 = id) := by
  induction l with
  | nil => simp [List.find?, h]
  | cons x xs ih =>
    by_cases hx : x.1 = id <;> simp [List.find?_cons, hx, ih]

theorem find?_append_left_none {α : Type} (l : List (String × α))
    (kv0 : String × α) (id : String)
    (h : l.find? (fun kv => kv.1 = id) = none) (hk : kv0.1 = id) :
    (l ++ [kv0]).find? (fun kv => kv.1 = id) = some kv0 := by
  induction l with
  | nil => simp [List.find?, hk]
  | cons x xs ih =>
    by_cases hx : x.1 = id
    · rw [List.find?_cons_of_pos _ (by simpa using hx)] at h
      exact absurd h (by simp)
    · rw [List.find?_cons_of_neg _ (by simpa using hx)] at h
      simpa [List.find?_cons, hx] using ih h

theorem propUpdate_fst (row : EavRow) (kv : String × PivotObj) :
    (propUpdate row kv).1 = kv.1 := by
  rw [propUpdate]
  split <;> rfl

theorem find?_map_propUpdate (l : List (String × PivotObj)) (row : EavRow)
    (id : String) :
    (l.map (propUpdate row)).find? (fun kv => kv.1 = id) =
      if id = row.entry_id
      then (l.find? (fun kv => kv.1 = id)).map (fun kv =>
        (kv.1, setProp kv.2 row.field_name row.value))
      else l.find? (fun kv => kv.1 = id) := by
  induction l with
  | nil => by_cases hid : id = row.entry_id <;> simp [List.find?, hid]
  | cons x xs ih =>
    by_cases hid : id = row.entry_id
    · subst hid
      rw [if_pos rfl]
      by_cases hx : x.1 = row.entry_id
      · rw [List.map_cons,
          List.find?_cons_of_pos _ (by simpa [propUpdate_fst] using hx),
          List.find?_cons_of_pos _ (by simpa using hx)]
        rw [propUpdate, if_pos hx]
        rfl
      · rw [List.map_cons,
          List.find?_cons_of_neg _ (by simpa [propUpdate_fst] using hx),
          List.find?_cons_of_neg _ (by simpa using hx),
          ih, if_pos rfl]
    · rw [if_neg hid]
      by_cases hx : x.1 = id
      · rw [List.map_cons,
          List.find?_cons_of_pos _ (by simpa [propUpdate_fst] using hx),
          List.find?_cons_of_pos _ (by simpa using hx)]
        rw [propUpdate, if_neg (by rw [hx]; exact hid)]
      · rw [List.map_cons,
          List.find?_cons_of_neg _ (by simpa [propUpdate_fst] using hx),
          List.find?_cons_of_neg _ (by simpa using hx),
          ih, if_neg hid]

theorem keys_map_propUpdate (l : List (String × PivotObj)) (row : EavRow) :
    (l.map (propUpdate row)).map Prod.fst = l.map Prod.fst := by
  rw [List.map_map]
  apply List.map_congr_left
  intro kv _
  simp [Function.comp, propUpdate_fst]

theorem pivotAcc1_keys (acc : List (String × PivotObj)) (row : EavRow) :
    (pivotAcc1 acc row).map Prod.fst =
      if row.entry_id ∈ acc.map Prod.fst then acc.map Prod.fst
      else acc.map Prod.fst ++ [row.entry_id] := by
  rw [pivotAcc1]
  by_cases hmem : row.entry_id ∈ acc.map Prod.fst
  · rw [if_pos ((find?_key_isSome acc row.entry_id).mpr hmem), if_pos hmem]
  · rw [if_neg (by rw [find?_key_isSome]; exact hmem), if_neg hmem]
    simp

theorem pivotStep_keys (acc : List (String × PivotObj)) (row : EavRow) :
    (pivotStep acc row).map Prod.fst =
      if row.entry_id ∈ acc.map Prod.fst then acc.map Prod.fst
      else acc.map Prod.fst ++ [row.entry_id] := by
  rw [pivotStep]
  by_cases hfn : row.field_name = ""
  · rw [if_pos hfn, pivotAcc1_keys]
  · rw [if_neg hfn, keys_map_propUpdate, pivotAcc1_keys]

theorem pivotStep_find_other (acc : List (String × PivotObj)) (row : EavRow)
    (id : String) (hid : ¬ (id = row.entry_id)) :
    (pivotStep acc row).find? (fun kv => kv.1 = id) =
      acc.find? (fun kv => kv.1 = id) := by
  have hacc1 : (pivotAcc1 acc row).find? (fun kv => kv.1 = id) =
      acc.find? (fun kv => kv.1 = id) := by
    rw [pivotAcc1]
    split
    · rfl
    · exact find?_append_right_nomatch acc _ id (by simpa using Ne.symm hid)
  rw [pivotStep]
  by_cases hfn : row.field_name = ""
  · rw [if_pos hfn, hacc1]
  · rw [if_neg hfn, find?_map_propUpdate, if_neg hid, hacc1]

theorem pivotStep_find_self_found (acc : List (String × PivotObj))
    (row : EavRow) (kvp : String × PivotObj)
    (h : acc.find? (fun kv => kv.1 = row.entry_id) = some kvp) :
    (pivotStep acc row).find? (fun kv => kv.1 = row.entry_id) =
      some (kvp.1,
        if row.field_name = "" then kvp.2
        else setProp kvp.2 row.field_name row.value) := by
  have hacc1 : pivotAcc1 acc row = acc := by
    rw [pivotAcc1, if_pos (by rw [h]; rfl)]
  rw [pivotStep]
  by_cases hfn : row.field_name = ""
  · rw [if_pos hfn, hacc1, h]
    simp [hfn]
  · rw [if_neg hfn, hacc1, find?_map_propUpdate, if_pos rfl, h]
    simp [hfn]

theorem pivotStep_find_self_new (acc : List (String × PivotObj))
    (row : EavRow)
    (h : acc.find? (fun kv => kv.1 = row.entry_id) = none) :
    (pivotStep acc row).find? (fun kv => kv.1 = row.entry_id) =
      some (row.entry_id,
        if row.field_name = "" then seedObj row
        else setProp (seedObj row) row.field_name row.value) := by
  have hacc1 : pivotAcc1 acc row = acc ++ [(row.entry_id, seedObj row)] := by
    rw [pivotAcc1, if_neg (by rw [h]; simp)]
  have happ := find?_append_left_none acc (row.entry_id, seedObj row)
    row.entry_id h rfl
  rw [pivotStep]
  by_cases hfn : row.field_name = ""
  · rw [if_pos hfn, hacc1, happ, if_pos hfn]
  · rw [if_neg hfn, hacc1, find?_map_propUpdate, if_pos rfl, happ, if_neg hfn]
    rfl

theorem pivotStep_find_none (acc : List (String × PivotObj)) (row : EavRow)
    (id : String) :
    (pivotStep acc row).find? (fun kv => kv.1 = id) = none ↔
      acc.find? (fun kv => kv.1 = id) = none ∧ ¬ (row.entry_id = id) := by
  by_cases hid : id = row.entry_id
  · subst hid
    constructor
    · intro h
      cases hf : acc.find? (fun kv => kv.1 = row.entry_id) with
      | some kvp =>
        rw [pivotStep_find_self_found acc row kvp hf] at h
        exact absurd h (by simp)
      | none =>
        rw [pivotStep_find_self_new acc row hf] at h
        exact absurd h (by simp)
    · rintro ⟨_, hne⟩
      exact absurd rfl hne
  · rw [pivotStep_find_other acc row id hid]
    have hne2 : ¬ (row.entry_id = id) := fun hh => hid hh.symm
    simp [hne2]

theorem pivotAcc1_mem (acc : List (String × PivotObj)) (row : EavRow)
    (kv1 : String × PivotObj) (h1 : kv1 ∈ pivotAcc1 acc row) :
    kv1 ∈ acc ∨ kv1 = (row.entry_id, seedObj row) := by
  rw [pivotAcc1] at h1
  by_cases hs : (acc.find? (fun kv => kv.1 = row.entry_id)).isSome
  · rw [if_pos hs] at h1
    exact Or.inl h1
  · rw [if_neg hs] at h1
    simpa using List.mem_append.mp h1

theorem pivotGo_keys_mem (rows : List EavRow) :
    ∀ (acc : List (String × PivotObj)) (id : String),
      id ∈ (pivotGo acc rows).map Prod.fst ↔
        id ∈ acc.map Prod.fst ∨ ∃ r ∈ rows, r.entry_id = id := by
  induction rows with
  | nil =>
    intro acc id
    simp [pivotGo]
  | cons row rest ih =>
    intro acc id
    rw [pivotGo, ih (pivotStep acc row) id, pivotStep_keys]
    by_cases hmem : row.entry_id ∈ acc.map Prod.fst
    · rw [if_pos hmem]
      constructor
      · rintro (hA | ⟨r, hr, hrid⟩)
        · exact Or.inl hA
        · exact Or.inr ⟨r, List.mem_cons_of_mem _ hr, hrid⟩
      · rintro (hA | ⟨r, hr, hrid⟩)
        · exact Or.inl hA
        · rcases List.mem_cons.mp hr with rfl | hr
          · exact Or.inl (hrid ▸ hmem)
          · exact Or.inr ⟨r, hr, hrid⟩
    · rw [if_neg hmem]
      constructor
      · rintro (hA | ⟨r, hr, hrid⟩)
        · rcases List.mem_append.mp hA with hA | hA
          · exact Or.inl hA
          · exact Or.inr ⟨row, List.mem_cons_self _ _,
              (List.mem_singleton.mp hA).symm⟩
        · exact Or.inr ⟨r, List.mem_cons_of_mem _ hr, hrid⟩
      · rintro (hA | ⟨r, hr, hrid⟩)
        · exact Or.inl (List.mem_append.mpr (Or.inl hA))
        · rcases List.mem_cons.mp hr with rfl | hr
          · exact Or.inl (List.mem_append.mpr (Or.inr
              (List.mem_singleton.mpr hrid.symm)))
          · exact Or.inr ⟨r, hr, hrid⟩

theorem pivotGo_keys_nodup (rows : List EavRow) :
    ∀ acc : List (String × PivotObj), (acc.map Prod.fst).Nodup →
      ((pivotGo acc rows).map Prod.fst).Nodup := by
  induction rows with
  | nil =>
    intro acc h
    simpa [pivotGo] using h
  | cons row rest ih =>
    intro acc h
    rw [pivotGo]
    apply ih
    rw [pivotStep_keys]
    by_cases hmem : row.entry_id ∈ acc.map Prod.fst
    · rwa [if_pos hmem]
    · rw [if_neg hmem, List.nodup_append]
      exact ⟨h, List.nodup_singleton _, by simpa using hmem⟩

/-- One step preserves the three seed values of any group whose entry has no
field named like a seed key, and a freshly created group reads them back
from its creating row. -/
theorem pivotStep_objGet_seed (acc : List (String × PivotObj)) (row : EavRow)
    (kv0 : String × PivotObj) (h : kv0 ∈ pivotStep acc row)
    (hno : kv0.1 = row.entry_id →
      (row.field_name ≠ "entry_id" ∧ row.field_name ≠ "created_at" ∧
        row.field_name ≠ "updated_at")) :
    (∃ kv1 ∈ acc, kv1.1 = kv0.1 ∧
      objGet kv0.2 "entry_id" = objGet kv1.2 "entry_id" ∧
      objGet kv0.2 "created_at" = objGet kv1.2 "created_at" ∧
      objGet kv0.2 "updated_at" = objGet kv1.2 "updated_at") ∨
    (kv0.1 = row.entry_id ∧
      objGet kv0.2 "entry_id" = some (some row.entry_id) ∧
      objGet kv0.2 "created_at" = some (some row.created_at) ∧
      objGet kv0.2 "updated_at" = some (some row.updated_at)) := by
  rw [pivotStep] at h
  by_cases hfn : row.field_name = ""
  · rw [if_pos hfn] at h
    rcases pivotAcc1_mem acc row kv0 h with h1 | rfl
    · exact Or.inl ⟨kv0, h1, rfl, rfl, rfl, rfl⟩
    · exact Or.inr ⟨rfl, objGet_seedObj_entry row, objGet_seedObj_created row,
        objGet_seedObj_updated row⟩
  · rw [if_neg hfn] at h
    obtain ⟨kv1, h1, hkv⟩ := List.mem_map.mp h
    rw [propUpdate] at hkv
    rcases pivotAcc1_mem acc row kv1 h1 with h2 | rfl
    · by_cases hk1 : kv1.1 = row.entry_id
      · rw [if_pos hk1] at hkv
        subst hkv
        obtain ⟨hfe, hfc, hfu⟩ := hno hk1
        exact Or.inl ⟨kv1, h2, rfl,
          setProp_get_other kv1.2 _ _ _ (fun hh => hfe hh.symm),
          setProp_get_other kv1.2 _ _ _ (fun hh => hfc hh.symm),
          setProp_get_other kv1.2 _ _ _ (fun hh => hfu hh.symm)⟩
      · rw [if_neg hk1] at hkv
        subst hkv
        exact Or.inl ⟨kv1, h2, rfl, rfl, rfl, rfl⟩
    · rw [if_pos (show (row.entry_id, seedObj row).1 = row.entry_id
        from rfl)] at hkv
      subst hkv
      obtain ⟨hfe, hfc, hfu⟩ := hno rfl
      refine Or.inr ⟨rfl, ?_, ?_, ?_⟩
      · rw [show ((row.entry_id, setProp (seedObj row) row.field_name
          row.value) : String × PivotObj).2 = setProp (seedObj row)
            row.field_name row.value from rfl]
        rw [setProp_get_other _ _ _ _ (fun hh => hfe hh.symm)]
        exact objGet_seedObj_entry row
      · rw [show ((row.entry_id, setProp (seedObj row) row.field_name
          row.value) : String × PivotObj).2 = setProp (seedObj row)
            row.field_name row.value from rfl]
        rw [setProp_get_other _ _ _ _ (fun hh => hfc hh.symm)]
        exact objGet_seedObj_created row
      · rw [show ((row.entry_id, setProp (seedObj row) row.field_name
          row.value) : String × PivotObj).2 = setProp (seedObj row)
            row.field_name row.value from rfl]
        rw [setProp_get_other _ _ _ _ (fun hh => hfu hh.symm)]
        exact objGet_seedObj_updated row

/-- Through the whole pivot, a group whose entry has no field named like a
seed key reads back the entry id and timestamps of one of its rows. -/
theorem pivotGo_objGet_seed (rows : List EavRow) :
    ∀ (acc : List (String × PivotObj)) (kv : String × PivotObj),
      kv ∈ pivotGo acc rows →
      (∀ r ∈ rows, r.entry_id = kv.1 →
        (r.field_name ≠ "entry_id" ∧ r.field_name ≠ "created_at" ∧
          r.field_name ≠ "updated_at")) →
      (∃ kv1 ∈ acc, kv1.1 = kv.1 ∧
        objGet kv.2 "entry_id" = objGet kv1.2 "entry_id" ∧
        objGet kv.2 "created_at" = objGet kv1.2 "created_at" ∧
        objGet kv.2 "updated_at" = objGet kv1.2 "updated_at") ∨
      (∃ r ∈ rows, r.entry_id = kv.1 ∧
        objGet kv.2 "entry_id" = some (some r.entry_id) ∧
        objGet kv.2 "created_at" = some (some r.created_at) ∧
        objGet kv.2 "updated_at" = some (some r.updated_at)) := by
  induction rows with
  | nil =>
    intro acc kv h _
    exact Or.inl ⟨kv, by simpa [pivotGo] using h, rfl, rfl, rfl, rfl⟩
  | cons row rest ih =>
    intro acc kv h hno
    rw [pivotGo] at h
    have hnorest : ∀ r ∈ rest, r.entry_id = kv.1 →
        (r.field_name ≠ "entry_id" ∧ r.field_name ≠ "created_at" ∧
          r.field_name ≠ "updated_at") :=
      fun r hr => hno r (List.mem_cons_of_mem _ hr)
    rcases ih _ kv h hnorest with
      ⟨kv0, h0, hk, he, hc, hu⟩ | ⟨r, hr, hrid, hre, hrc, hru⟩
    · have hno0 : kv0.1 = row.entry_id →
          (row.field_name ≠ "entry_id" ∧ row.field_name ≠ "created_at" ∧
            row.field_name ≠ "updated_at") := by
        intro hq
        exact hno row (List.mem_cons_self _ _) (hq.symm.trans hk)
      rcases pivotStep_objGet_seed acc row kv0 h0 hno0 with
        ⟨kv1, h1, h1k, h1e, h1c, h1u⟩ | ⟨h0k, h0e, h0c, h0u⟩
      · exact Or.inl ⟨kv1, h1, h1k.trans hk, he.trans h1e, hc.trans h1c,
          hu.trans h1u⟩
      · exact Or.inr ⟨row, List.mem_cons_self _ _, h0k.symm.trans hk,
          he.trans h0e, hc.trans h0c, hu.trans h0u⟩
    · exact Or.inr ⟨r, List.mem_cons_of_mem _ hr, hrid, hre, hrc, hru⟩

theorem hasPropKey_some (kvp : String × PivotObj) (k : String) :
    hasPropKey (some kvp) k ↔ k ∈ kvp.2.map Prod.fst := by
  constructor
  · rintro ⟨kvq, hq, hkq⟩
    injection hq with hq
    subst hq
    exact hkq
  · intro h
    exact ⟨kvp, rfl, h⟩

theorem hasPropKey_none (k : String) : ¬ hasPropKey none k := by
  rintro ⟨kvq, hq, hkq⟩
  exact Option.noConfusion hq

/-- The key set of the group under `id` after one step: the keys it already
had, the three seed keys when this step creates the group, and the row's
field name when it is non-empty and targets this group. -/
theorem pivotStep_hasPropKey (acc : List (String × PivotObj)) (row : EavRow)
    (id k : String) :
    hasPropKey ((pivotStep acc row).find? (fun kv => kv.1 = id)) k ↔
      hasPropKey (acc.find? (fun kv => kv.1 = id)) k ∨
        (row.entry_id = id ∧
          acc.find? (fun kv => kv.1 = row.entry_id) = none ∧
          (k = "entry_id" ∨ k = "created_at" ∨ k = "updated_at")) ∨
        (k ≠ "" ∧ row.entry_id = id ∧ row.field_name = k) := by
  by_cases hid : id = row.entry_id
  · subst hid
    cases hf : acc.find? (fun kv => kv.1 = row.entry_id) with
    | some kvp =>
      rw [pivotStep_find_self_found acc row kvp hf]
      by_cases hfn : row.field_name = ""
      · rw [if_pos hfn, hasPropKey_some]
        constructor
        · intro h
          exact Or.inl h
        · rintro (h | ⟨_, hnone, _⟩ | ⟨hk, _, hfk⟩)
          · exact h
          · exact Option.noConfusion hnone
          · exact absurd (hfk.symm.trans hfn) hk
      · rw [if_neg hfn, hasPropKey_some, hasPropKey_some, setProp_keys]
        constructor
        · rintro (h | h)
          · exact Or.inl h
          · exact Or.inr (Or.inr ⟨fun hkk => hfn (by rw [← h, hkk]), rfl,
              h.symm⟩)
        · rintro (h | ⟨_, hnone, _⟩ | ⟨hk, _, hfk⟩)
          · exact Or.inl h
          · exact Option.noConfusion hnone
          · exact Or.inr hfk.symm
    | none =>
      rw [pivotStep_find_self_new acc row hf]
      by_cases hfn : row.field_name = ""
      · rw [if_pos hfn, hasPropKey_some]
        constructor
        · intro h
          exact Or.inr (Or.inl ⟨rfl, rfl, (seedObj_keys row k).mp h⟩)
        · rintro (h | ⟨_, _, hsk⟩ | ⟨hk, _, hfk⟩)
          · exact absurd h (hasPropKey_none k)
          · exact (seedObj_keys row k).mpr hsk
          · exact absurd (hfk.symm.trans hfn) hk
      · rw [if_neg hfn, hasPropKey_some, setProp_keys]
        constructor
        · rintro (h | h)
          · exact Or.inr (Or.inl ⟨rfl, rfl, (seedObj_keys row k).mp h⟩)
          · exact Or.inr (Or.inr ⟨fun hkk => hfn (by rw [← h, hkk]), rfl,
              h.symm⟩)
        · rintro (h | ⟨_, _, hsk⟩ | ⟨hk, _, hfk⟩)
          · exact absurd h (hasPropKey_none k)
          · exact Or.inl ((seedObj_keys row k).mpr hsk)
          · exact Or.inr hfk.symm
  · rw [pivotStep_find_other acc row id hid]
    have hne2 : ¬ (row.entry_id = id) := fun hh => hid hh.symm
    simp [hne2]

/-- The key set of the group under `id` after the whole pivot: the keys it
had in the starting map, the three seed keys when the pivot itself created
the group, and the non-empty populated field names of the entry. -/
theorem pivotGo_hasPropKey (rows : List EavRow) :
    ∀ (acc : List (String × PivotObj)) (id k : String),
      hasPropKey ((pivotGo acc rows).find? (fun kv => kv.1 = id)) k ↔
        hasPropKey (acc.find? (fun kv => kv.1 = id)) k ∨
          (acc.find? (fun kv => kv.1 = id) = none ∧
            (∃ r ∈ rows, r.entry_id = id) ∧
            (k = "entry_id" ∨ k = "created_at" ∨ k = "updated_at")) ∨
          (k ≠ "" ∧ ∃ r ∈ rows, r.entry_id = id ∧ r.field_name = k) := by
  induction rows with
  | nil =>
    intro acc id k
    simp [pivotGo]
  | cons row rest ih =>
    intro acc id k
    rw [pivotGo, ih (pivotStep acc row) id k, pivotStep_hasPropKey,
      pivotStep_find_none]
    constructor
    · rintro ((hA | ⟨hrid, hnone, hsk⟩ | ⟨hk, hrid, hfk⟩) |
        ⟨⟨hnone, hnrow⟩, ⟨r, hr, hrid⟩, hsk⟩ | ⟨hk, r, hr, hrid, hfk⟩)
      · exact Or.inl hA
      · exact Or.inr (Or.inl ⟨by rw [← hrid]; exact hnone,
          ⟨row, List.mem_cons_self _ _, hrid⟩, hsk⟩)
      · exact Or.inr (Or.inr ⟨hk, row, List.mem_cons_self _ _, hrid, hfk⟩)
      · exact Or.inr (Or.inl ⟨hnone, ⟨r, List.mem_cons_of_mem _ hr, hrid⟩,
          hsk⟩)
      · exact Or.inr (Or.inr ⟨hk, r, List.mem_cons_of_mem _ hr, hrid, hfk⟩)
    · rintro (hA | ⟨hnone, ⟨r, hr, hrid⟩, hsk⟩ | ⟨hk, r, hr, hrid, hfk⟩)
      · exact Or.inl (Or.inl hA)
      · by_cases hrow : row.entry_id = id
        · exact Or.inl (Or.inr (Or.inl ⟨hrow, by rw [hrow]; exact hnone,
            hsk⟩))
        · rcases List.mem_cons.mp hr with rfl | hr
          · exact absurd hrid hrow
          · exact Or.inr (Or.inl ⟨⟨hnone, hrow⟩, ⟨r, hr, hrid⟩, hsk⟩)
      · rcases List.mem_cons.mp hr with rfl | hr
        · exact Or.inl (Or.inr (Or.inr ⟨hk, hrid, hfk⟩))
        · exact Or.inr (Or.inr ⟨hk, r, hr, hrid, hfk⟩)

/-- C6 counterexample: `entry[row.field_name] = row.value` writes into the
same object that holds the seed, so an EntryField row whose field is
literally named `created_at` overwrites the seeded timestamp (the record
reads `"HACK"` instead of the entry's `"t1"`), and with a field named
`entry_id` two records of distinct entries both read back `entry_id = "e2"`
— not one record per distinct entry id as the claim states. -/
theorem C6_seed_keys_overwritten_cex :
    pivotEavRows [⟨"e1", "t1", "u1", "created_at", some "HACK"⟩] =
      [[("entry_id", some "e1"), ("created_at", some "HACK"),
        ("updated_at", some "u1")]] ∧
    (pivotEavRows [⟨"e1", "t1", "u1", "created_at", some "HACK"⟩]).map
        (fun o => objGet o "created_at") = [some (some "HACK")] ∧
    some (some "HACK") ≠ some (some "t1") ∧
    (pivotEavRows
        [⟨"e1", "t1", "u1", "entry_id", some "e2"⟩,
         ⟨"e2", "t2", "u2", "name", some "Bob"⟩]).map
        (fun o => objGet o "entry_id") =
      [some (some "e2"), some (some "e2")] := by decide

/-- C6 amended: the pivot yields exactly one group per distinct row entry
id (grouping is by the raw row's entry id); each record's keys are exactly
the three seed keys plus the populated non-empty field names of its entry —
no key for a field with no EntryField row; because field values are
assigned into the same object as the seed, a field named like a seed key
overwrites the seeded value in place, and when no field name of the entry
collides with a seed key the record reads back the entry id and the
created/updated timestamps of one of the entry's rows; the spec's `e1`/`e2`
example yields two records where `e2` has no `age` key. -/
theorem C6_pivot_object_shape (rows : List EavRow) :
    ((pivotGo [] rows).map Prod.fst).Nodup ∧
    (∀ id : String, id ∈ (pivotGo [] rows).map Prod.fst ↔
      ∃ r ∈ rows, r.entry_id = id) ∧
    (∀ kv ∈ pivotGo [] rows, ∀ k : String,
      k ∈ kv.2.map Prod.fst ↔
        ((k = "entry_id" ∨ k = "created_at" ∨ k = "updated_at") ∨
          (k ≠ "" ∧ ∃ r ∈ rows, r.entry_id = kv.1 ∧ r.field_name = k))) ∧
    (∀ kv ∈ pivotGo [] rows,
      (∀ r ∈ rows, r.entry_id = kv.1 →
        (r.field_name ≠ "entry_id" ∧ r.field_name ≠ "created_at" ∧
          r.field_name ≠ "updated_at")) →
      ∃ r ∈ rows, r.entry_id = kv.1 ∧
        objGet kv.2 "entry_id" = some (some r.entry_id) ∧
        objGet kv.2 "created_at" = some (some r.created_at) ∧
        objGet kv.2 "updated_at" = some (some r.updated_at)) ∧
    pivotEavRows [⟨"e1", "t1", "u1", "created_at", some "HACK"⟩] =
      [[("entry_id", some "e1"), ("created_at", some "HACK"),
        ("updated_at", some "u1")]] ∧
    pivotEavRows eavRowsC6 =
      [[("entry_id", some "e1"), ("created_at", some "t1"),
        ("updated_at", some "u1"), ("name", some "Alice"),
        ("age", some "30")],
       [("entry_id", some "e2"), ("created_at", some "t2"),
        ("updated_at", some "u2"), ("name", some "Bob")]] := by
  have hnd : ((pivotGo [] rows).map Prod.fst).Nodup :=
    pivotGo_keys_nodup rows [] (by simp)
  refine ⟨hnd, ?_, ?_, ?_, by decide, by decide⟩
  · intro id
    simpa using pivotGo_keys_mem rows [] id
  · intro kv hkv k
    have hfind : (pivotGo [] rows).find? (fun x => x.1 = kv.1) = some kv :=
      find?_self_of_nodupKeys _ hnd kv hkv
    have hcov : ∃ r ∈ rows, r.entry_id = kv.1 := by
      have := (pivotGo_keys_mem rows [] kv.1).mp
        (List.mem_map_of_mem Prod.fst hkv)
      simpa using this
    have h5 := pivotGo_hasPropKey rows [] kv.1 k
    rw [hfind, hasPropKey_some] at h5
    rw [h5]
    constructor
    · rintro (h | ⟨_, _, hsk⟩ | hfield)
      · exact absurd h (hasPropKey_none k)
      · exact Or.inl hsk
      · exact Or.inr hfield
    · rintro (hsk | hfield)
      · exact Or.inr (Or.inl ⟨rfl, hcov, hsk⟩)
      · exact Or.inr (Or.inr hfield)
  · intro kv hkv hno
    rcases pivotGo_objGet_seed rows [] kv hkv hno with ⟨kv1, h1, _⟩ | h
    · simp at h1
    · exact h

/-- Witness for C6's amended statement on the concrete `e1`/`e2` example:
the `e1` record, whose entry has no field named like a seed key, reads back
the entry id and the timestamps of one of `e1`'s rows. -/
theorem C6_pivot_object_shape_witness :
    ∃ r ∈ eavRowsC6, r.entry_id = "e1" ∧
      objGet [("entry_id", some "e1"), ("created_at", some "t1"),
        ("updated_at", some "u1"), ("name", some "Alice"),
        ("age", some "30")] "entry_id" = some (some r.entry_id) ∧
      objGet [("entry_id", some "e1"), ("created_at", some "t1"),
        ("updated_at", some "u1"), ("name", some "Alice"),
        ("age", some "30")] "created_at" = some (some r.created_at) ∧
      objGet [("entry_id", some "e1"), ("created_at", some "t1"),
        ("updated_at", some "u1"), ("name", some "Alice"),
        ("age", some "30")] "updated_at" = some (some r.updated_at) :=
  (C6_pivot_object_shape eavRowsC6).2.2.2.1
    ("e1", [("entry_id", some "e1"), ("created_at", some "t1"),
      ("updated_at", some "u1"), ("name", some "Alice"),
      ("age", some "30")])
    (by decide) (by decide)

end Ironclaw
